import Mathlib

/-!
# Verification of the Summarizer text-to-structured-notes pipeline

Shallow embedding of the core logic of `backend/app/processor.py` and
`backend/app/summarizer_logic.py`:

* `segment_by_topic` — greedy similarity/length-driven topic segmentation;
* `generate_structured_notes` — per-segment structured extraction with a
  JSON-parse-failure fallback;
* `process_all_segments` — the sequential batch driver with its
  retry/backoff/fatal-abort policy (attempt and sleep events are recorded
  in an explicit event log so the policy can be stated);
* `generate_mindmap` — mindmap generation with code-fence stripping;
* `keyword_summarize` / `safe_json_parse` — the standalone keyword path.

External collaborators (the Groq LLM, sentence embeddings, spaCy, Pegasus,
`json.loads`) are modeled as oracle parameters, collected in `Ctx` for the
processor; only their results' flow through the repository's own control
logic is embedded.  Python strings are modeled as `String` (reasoning goes
through `String.data : List Char`), Python floats as `ℚ`.
-/

/-! ## Python string primitives -/

/-- Accumulator-based splitter: the state of Python `str.split()` (split on
whitespace runs, dropping empty fields) scanning left to right, with `acc`
holding the reversed characters of the word in progress. -/
def pyWordsAux : List Char → List Char → List (List Char)
  | [], acc => if acc.isEmpty then [] else [acc.reverse]
  | c :: cs, acc =>
    if c.isWhitespace then
      if acc.isEmpty then pyWordsAux cs [] else acc.reverse :: pyWordsAux cs []
    else pyWordsAux cs (c :: acc)

/-- Python `s.split()` (no separator argument): whitespace-separated words,
empty fields dropped. -/
def pyWords (s : List Char) : List (List Char) :=
  pyWordsAux s []

/-- `len(s.split())`, the word count used throughout `segment_by_topic`. -/
def wordCount (s : String) : Nat :=
  (pyWords s.data).length

/-- Total word count of a list of sentences. -/
def sumWc (l : List String) : Nat :=
  (l.map wordCount).sum

/-- Python `' '.join(l)`. -/
def joinSp : List String → String
  | [] => ""
  | [s] => s
  | s :: rest => s ++ " " ++ joinSp rest

/-! ## `segment_by_topic` (processor.py lines 113-156)

The sentence-embedding model and `cosine_similarity` are external
capabilities (spec §6); they are modeled by an abstract similarity oracle
`sim` on the pair of adjacent sentences whose embeddings the code compares.
The loop state is `(remaining sentences, previous sentence, current_segment,
current_word_count)`. -/

def segLoop (sim : String → String → ℚ) (threshold : ℚ) (maxLen minLen : Nat) :
    List String → String → List String → Nat → List String
  | [], _, current, _ =>
    -- after the loop: `if current_segment: segments.append(' '.join(current_segment))`
    if current.isEmpty then [] else [joinSp current]
  | s :: rest, prev, current, cwc =>
    if maxLen < cwc + wordCount s then
      -- force segment break if too long
      joinSp current :: segLoop sim threshold maxLen minLen rest s [s] (wordCount s)
    else if sim prev s < threshold ∧ minLen ≤ cwc then
      -- break if similarity below threshold AND segment large enough
      joinSp current :: segLoop sim threshold maxLen minLen rest s [s] (wordCount s)
    else
      segLoop sim threshold maxLen minLen rest s (current ++ [s]) (cwc + wordCount s)

/-- `TextNotesProcessor.segment_by_topic`.  Defaults in the source:
`similarity_threshold=0.5`, `max_segment_length=500`, `min_segment_length=100`. -/
def segment_by_topic (sim : String → String → ℚ) (threshold : ℚ)
    (maxLen minLen : Nat) (sentences : List String) : List String :=
  match sentences with
  | [] => []
  | s :: rest => segLoop sim threshold maxLen minLen rest s [s] (wordCount s)

/-! ## JSON values and dynamic field access

`json.loads` is an external library routine; it is modeled as an abstract
parser `String → Option Json` in `Ctx` (`none` = `JSONDecodeError`).  The
dynamic `dict.get(key, default)` accesses are modeled at the contract's
field types (strings and lists of strings, spec §3): a present field of the
wrong JSON type is mapped to the default / its string elements. -/

inductive Json where
  | null
  | bool (b : Bool)
  | num (q : ℚ)
  | str (s : String)
  | arr (elems : List Json)
  | obj (fields : List (String × Json))

def jLookup (fields : List (String × Json)) (key : String) : Option Json :=
  match fields with
  | [] => none
  | (k, v) :: rest => if k = key then some v else jLookup rest key

def jGetStr (fields : List (String × Json)) (key dflt : String) : String :=
  match jLookup fields key with
  | some (Json.str s) => s
  | _ => dflt

def jGetStrList (fields : List (String × Json)) (key : String) : List String :=
  match jLookup fields key with
  | some (Json.arr l) =>
    l.filterMap fun v => match v with | Json.str s => some s | _ => none
  | _ => []

/-! ## More Python string primitives -/

/-- Python `s[:n]` (slicing by code points). -/
def pyTake (s : String) (n : Nat) : String :=
  ⟨s.data.take n⟩

/-- Python `s.strip()` on a character list: whitespace removed at both ends. -/
def stripChars (l : List Char) : List Char :=
  ((l.dropWhile fun c => c.isWhitespace).reverse.dropWhile fun c => c.isWhitespace).reverse

/-- Python `s.strip()`. -/
def pyStrip (s : String) : String :=
  ⟨stripChars s.data⟩

/-- If `pat` is a literal match at the head of `l`, the remainder after it. -/
def dropLit : List Char → List Char → Option (List Char)
  | [], l => some l
  | _ :: _, [] => none
  | p :: ps, c :: cs => if c = p then dropLit ps cs else none

def fenceChars : List Char := "```".data

/-- Scanner for `re.sub(r'^```json?\n|```$', '', text, flags=re.MULTILINE)`
in `generate_structured_notes`: at a line start remove a literal
"```json\n" or "```jso\n" (the regex `json?` makes the final `n` optional);
anywhere remove "```" standing immediately before a newline or at the end.
`fuel` bounds the scan (one unit per step; the caller passes the length). -/
def gjSubF : Nat → Bool → List Char → List Char
  | 0, _, l => l
  | _ + 1, _, [] => []
  | fuel + 1, lineStart, c :: cs =>
    match (if lineStart then dropLit "```json\n".data (c :: cs) else none) with
    | some rest => gjSubF fuel true rest
    | none =>
      match (if lineStart then dropLit "```jso\n".data (c :: cs) else none) with
      | some rest => gjSubF fuel true rest
      | none =>
        match dropLit fenceChars (c :: cs) with
        | some rest =>
          if rest.head? = some '\n' ∨ rest = [] then gjSubF fuel false rest
          else c :: gjSubF fuel (c == '\n') cs
        | none => c :: gjSubF fuel (c == '\n') cs

/-- The response clean-up in `generate_structured_notes`:
`result_text = content.strip()`, then markdown code fences are removed
(and the text re-stripped) when it starts with "```". -/
def gsnClean (content : String) : String :=
  let t := pyStrip content
  if fenceChars.isPrefixOf t.data then
    pyStrip ⟨gjSubF t.data.length true t.data⟩
  else t

/-! ## Structured extraction (`generate_structured_notes`, processor.py 211-275) -/

/-- The per-segment structured record (`structured_data` in the source; the
spec's StructuredRecord).  `segment_id` is absent until the batch driver
sets it. -/
structure StructuredData where
  topic : String
  summary : String
  pegasus_summary : String
  key_points : List String
  action_items : List String
  questions : List String
  keywords : List String
  segment_id : Option Nat := none
deriving DecidableEq

/-- External collaborators of the processor (spec §6), as oracles:
`parse` = `json.loads`; `pegasus` = `generate_pegasus_summary` (segment and
keyword-guided summary); `resp` = the Groq chat-completion response to the
k-th call the run makes (`.error` = the client raised); `overall` = the
spaCy+Pegasus work inside `generate_overall_summary`. -/
structure Ctx where
  parse : String → Option Json
  pegasus : String → List String → String
  use_pegasus : Bool
  resp : Nat → Except String String
  overall : List String → String × List String

/-- The fallback record built in the `except json.JSONDecodeError` branch. -/
def parsingErrorFallback (segment : String) : StructuredData :=
  { topic := "Error parsing segment"
    summary := pyTake segment 200 ++ "..."
    pegasus_summary := ""
    key_points := []
    action_items := []
    questions := []
    keywords := [] }

/-- `TextNotesProcessor.generate_structured_notes(segment)`, given the raw
outcome `response` of its single LLM call.  A raised client error is
re-raised (`except Exception: raise e`); a JSON parse failure degrades to
`parsingErrorFallback`; parsed non-object JSON makes `data.get` raise an
`AttributeError`, which the same generic handler re-raises. -/
def generate_structured_notes (ctx : Ctx) (response : Except String String)
    (segment : String) : Except String StructuredData :=
  match response with
  | .error e => .error e
  | .ok content =>
    let result_text := gsnClean content
    match ctx.parse result_text with
    | none => .ok (parsingErrorFallback segment)
    | some (Json.obj fields) =>
      let keywords := jGetStrList fields "keywords"
      .ok { topic := jGetStr fields "topic" "Unknown Topic"
            summary := jGetStr fields "summary" ""
            pegasus_summary := if ctx.use_pegasus then ctx.pegasus segment keywords else ""
            key_points := jGetStrList fields "key_points"
            action_items := jGetStrList fields "action_items"
            questions := jGetStrList fields "questions"
            keywords := keywords }
    | some _ => .error "AttributeError: object has no attribute get"

def ctxC5 : Ctx :=
  { parse := fun _ => none
    pegasus := fun _ _ => ""
    use_pegasus := false
    resp := fun _ => .ok ""
    overall := fun _ => ("", []) }

/-! ## Error classification in the batch driver (processor.py 407-418)

The driver classifies a raised error by substring tests on `str(e)`,
exactly as the source does. -/

/-- Contiguous-substring test: Python `needle in hay` on strings. -/
def hasSub (needle : List Char) : List Char → Bool
  | [] => needle.isEmpty
  | c :: cs => needle.isPrefixOf (c :: cs) || hasSub needle cs

def pyIn (needle hay : String) : Bool :=
  hasSub needle.data hay.data

/-- Python `s.lower()` (ASCII-level model). -/
def pyLower (s : String) : String :=
  ⟨s.data.map Char.toLower⟩

/-- `"401" in error_msg and "invalid_api_key" in error_msg`: the fatal
credential-error class that aborts the whole batch. -/
def isFatalError (msg : String) : Bool :=
  pyIn "401" msg && pyIn "invalid_api_key" msg

/-- `"429" in error_msg or "rate" in error_msg.lower()`: the
rate-limit/throttling class. -/
def isRateLimitError (msg : String) : Bool :=
  pyIn "429" msg || pyIn "rate" (pyLower msg)

/-- `wait_time = 10 if <rate-limited> else delay_seconds * 2`. -/
def waitTime (msg : String) (delay : ℚ) : ℚ :=
  if isRateLimitError msg then 10 else delay * 2

/-! ## Aggregation helpers (processor.py 445-457) -/

/-- `_extract_all_items(segments, key)`: flatten one list-valued field
across all segment records, preserving multiplicity and order. -/
def extract_all_items (segments : List StructuredData)
    (key : StructuredData → List String) : List String :=
  (segments.map key).flatten

/-- `_extract_unique_keywords(segments)`: the keyword sets of all segments
are unioned and the distinct keywords returned sorted
(`sorted(list(keywords))` on a `set`); sorting the deduplicated flattened
list computes the same list. -/
def extract_unique_keywords (segments : List StructuredData) : List String :=
  List.insertionSort (fun a b => a ≤ b)
    ((segments.map fun sd => sd.keywords).flatten.dedup)

/-! ## Batch driver `process_all_segments` (processor.py 383-443)

The driver is embedded with an explicit event log: one `attempt` event per
call to `generate_structured_notes` (tagged with the 1-based segment index,
the global call number consumed from `Ctx.resp`, and the segment text) and
one `sleep` event per `time.sleep`.  Python's `while retry_count <
max_retries` loop is run on the remaining-retries fuel, which the driver
always starts at `max_retries = 3`. -/

inductive Event where
  | attempt (segIdx callNo : Nat) (segment : String)
  | sleep (seconds : ℚ)
deriving DecidableEq

/-- The retry loop for one segment: up to `fuel` attempts starting at global
call number `c`.  Returns the events, the next call number and either the
tagged record (`some`), `none` when all retries were exhausted (the segment
is skipped), or the re-raised fatal error. -/
def segAttempts (ctx : Ctx) (delay : ℚ) (i n : Nat) (segment : String) :
    Nat → Nat → List Event × Nat × Except String (Option StructuredData)
  | c, 0 => ([], c, .ok none)
  | c, fuel + 1 =>
    match generate_structured_notes ctx (ctx.resp c) segment with
    | .ok sd =>
      -- success: tag with segment_id, then courtesy sleep unless last segment
      (Event.attempt i c segment :: (if i < n then [Event.sleep delay] else []),
        c + 1, .ok (some { sd with segment_id := some i }))
    | .error msg =>
      if isFatalError msg then
        -- CRITICAL: invalid API key — re-raise, aborting the batch
        ([Event.attempt i c segment], c + 1, .error msg)
      else
        match segAttempts ctx delay i n segment (c + 1) fuel with
        | (evs, c', r) =>
          (Event.attempt i c segment :: Event.sleep (waitTime msg delay) :: evs, c', r)

/-- `for i, segment in enumerate(segments, 1)`: process the remaining
segments, `i` the 1-based index of the first, `c` the next call number. -/
def runSegs (ctx : Ctx) (delay : ℚ) (n : Nat) :
    List String → Nat → Nat → List Event × Nat × Except String (List StructuredData)
  | [], _, c => ([], c, .ok [])
  | segment :: rest, i, c =>
    match segAttempts ctx delay i n segment c 3 with
    | (evs, c', .error msg) => (evs, c', .error msg)
    | (evs, c', .ok osd) =>
      match runSegs ctx delay n rest (i + 1) c' with
      | (evs2, c2, r2) =>
        (evs ++ evs2, c2,
          r2.map fun sds => match osd with | some sd => sd :: sds | none => sds)

/-- `generate_overall_summary(segments)`: pure spaCy/Pegasus work, delegated
to the `overall` oracle when Pegasus is enabled; otherwise only the
placeholder summary is produced (and no `document_keywords` key). -/
def generate_overall_summary (ctx : Ctx) (segments : List String) :
    String × List String :=
  if ctx.use_pegasus then ctx.overall segments
  else ("Pegasus summarization not enabled", [])

/-- The `final_output` dictionary (constant metadata fields omitted). -/
structure FinalOutput where
  total_segments : Nat
  overall_summary : String
  document_keywords : List String
  segments : List StructuredData
  all_action_items : List String
  all_questions : List String
  all_keywords : List String
deriving DecidableEq

/-- `TextNotesProcessor.process_all_segments(segments, delay_seconds)`
(source default `delay_seconds=0.5`): the event log of the run and either
the assembled final output or the fatal error the run re-raised. -/
def process_all_segments (ctx : Ctx) (segments : List String) (delay : ℚ) :
    List Event × Except String FinalOutput :=
  match runSegs ctx delay segments.length segments 1 0 with
  | (evs, _, r) =>
    (evs, r.map fun sds =>
      let ov := generate_overall_summary ctx segments
      { total_segments := sds.length
        overall_summary := ov.1
        document_keywords := ov.2
        segments := sds
        all_action_items := extract_all_items sds fun sd => sd.action_items
        all_questions := extract_all_items sds fun sd => sd.questions
        all_keywords := extract_unique_keywords sds })

/-- Number of extraction attempts the log records for segment `i`. -/
def countAttempts (i : Nat) (evs : List Event) : Nat :=
  evs.countP fun e => match e with
    | Event.attempt j _ _ => j == i
    | _ => false

/-- The backoff policy as a predicate on the event log: every failed
non-fatal attempt is immediately followed by a sleep of `10` seconds when
the error is rate-limit classified and `delay * 2` otherwise. -/
def sleepsOk (ctx : Ctx) (delay : ℚ) : List Event → Bool
  | [] => true
  | Event.sleep _ :: rest => sleepsOk ctx delay rest
  | Event.attempt _ k s :: rest =>
    match generate_structured_notes ctx (ctx.resp k) s with
    | .ok _ => sleepsOk ctx delay rest
    | .error msg =>
      if isFatalError msg then sleepsOk ctx delay rest
      else
        match rest with
        | Event.sleep w :: rest' =>
          decide (w = waitTime msg delay) && sleepsOk ctx delay rest'
        | _ => false

def ctxC2 : Ctx :=
  { parse := fun _ => none
    pegasus := fun _ _ => ""
    use_pegasus := false
    resp := fun _ => .error "Error code 401 invalid_api_key"
    overall := fun _ => ("", []) }

def ctxC4 : Ctx :=
  { parse := fun s => if s = "ok" then some (Json.obj []) else none
    pegasus := fun _ _ => ""
    use_pegasus := false
    resp := fun k => if k < 3 then .error "boom" else .ok "ok"
    overall := fun _ => ("", []) }

/-! ## Keyword-focused extractor (summarizer_logic.py)

`keyword_summarize(text, keyword, api_key)` returns a plain Python dict:
either the JSON value parsed from the model response (whatever its shape),
the `safe_json_parse` fallback dict, or an `error` dict.  The result is
modeled as a `Json` value paired with the number of generation-capability
invocations the call performed (for the call-counting stub of spec §8.7). -/

/-- Scanner for `re.sub(r"^```json|```$", "", raw_output)` in
summarizer_logic.py (no MULTILINE): remove a literal "```json" at the very
start, and a "```" at the very end or immediately before a final newline
(`$` without MULTILINE also matches just before a terminal newline). -/
def keywordFenceClean (l : List Char) : List Char :=
  let t := match dropLit "```json".data l with
    | some rest => rest
    | none => l
  if fenceChars.reverse.isPrefixOf t.reverse then
    t.take (t.length - 3)
  else if (fenceChars ++ ['\n']).reverse.isPrefixOf t.reverse then
    t.take (t.length - 4) ++ ['\n']
  else t

/-- `safe_json_parse(text)`: parse JSON, falling back to a dict with a
synthetic topic and a truncated prefix of the raw text when malformed. -/
def safe_json_parse (parse : String → Option Json) (text : String) : Json :=
  match parse text with
  | some j => j
  | none => Json.obj
      [("topic", Json.str "Parsing Error"),
       ("summary", Json.str (pyTake text 300)),
       ("key_points", Json.arr []),
       ("related_concepts", Json.arr [])]

/-- `keyword_summarize(text, keyword, api_key)`.  `clientOk` models whether
`initialize_groq_client` returned a client (`None` on failure), `response`
the outcome of the single chat-completion call; the `Nat` component counts
the generation-capability invocations made. -/
def keyword_summarize (parse : String → Option Json) (clientOk : Bool)
    (response : Except String String) (text keyword : String) : Json × Nat :=
  if text = "" ∨ keyword = "" then
    (Json.obj [("error", Json.str "Text and keyword are required")], 0)
  else if clientOk = false then
    (Json.obj [("error", Json.str "Invalid Groq API configuration")], 0)
  else
    match response with
    | .error e => (Json.obj [("error", Json.str ("Groq API Error: " ++ e))], 1)
    | .ok raw =>
      let raw_output := pyStrip ⟨keywordFenceClean (pyStrip raw).data⟩
      (safe_json_parse parse raw_output, 1)

/-! ## Mindmap generation (processor.py 315-355) -/

def mmHeaderNL : List Char := "```mermaid\n".data

def mmHeader : List Char := "```mermaid".data

/-- Scanner for `re.sub(r'^```mermaid\n?|```$', '', code, flags=re.MULTILINE)`
in `generate_mindmap`: at a line start remove a literal "```mermaid" with an
optional trailing newline; anywhere remove a "```" standing immediately
before a newline or at the end.  One fuel unit per scan step. -/
def mmSubF : Nat → Bool → List Char → List Char
  | 0, _, l => l
  | _ + 1, _, [] => []
  | fuel + 1, lineStart, c :: cs =>
    match (if lineStart then dropLit mmHeaderNL (c :: cs) else none) with
    | some rest => mmSubF fuel true rest
    | none =>
      match (if lineStart then dropLit mmHeader (c :: cs) else none) with
      | some rest => mmSubF fuel false rest
      | none =>
        match dropLit fenceChars (c :: cs) with
        | some rest =>
          if rest.head? = some '\n' ∨ rest = [] then mmSubF fuel false rest
          else c :: mmSubF fuel (c == '\n') cs
        | none => c :: mmSubF fuel (c == '\n') cs

/-- The post-processing in `generate_mindmap`:
`mermaid_code = content.strip()`, the fence-stripping `re.sub`, `.strip()`. -/
def mindmapClean (raw : String) : String :=
  let t := pyStrip raw
  pyStrip ⟨mmSubF t.data.length true t.data⟩

/-- `TextNotesProcessor.generate_mindmap`, given the raw outcome of its
chat-completion call.  A raised error is swallowed and `""` returned; the
write of the `.mmd` file persists exactly the returned string and is I/O
outside this model. -/
def generate_mindmap (response : Except String String) : String :=
  match response with
  | .ok content => mindmapClean content
  | .error _ => ""

/-- The backtick character (obtained from the fence literal). -/
def bq : Char := fenceChars.headD ' '

/-- Whether the produced text still begins with a code fence. -/
def beginsWithFence (s : String) : Bool :=
  fenceChars.isPrefixOf s.data

/-- The line-start state after scanning through `l` starting from `st`. -/
def endSt : List Char → Bool → Bool
  | [], st => st
  | c :: cs, _ => endSt cs (c == '\n')

/-! ## Theorems

The properties of the embedded operations, in the order of the components
above: word counting, segmentation, aggregation, the batch driver,
structured extraction, the keyword path, and mindmap fence stripping. -/

theorem pyWordsAux_ws_append (b : List Char) :
    ∀ (a acc : List Char),
      pyWordsAux (a ++ ' ' :: b) acc = pyWordsAux a acc ++ pyWordsAux b [] := by
  intro a
  induction a with
  | nil =>
    intro acc
    by_cases h : acc.isEmpty <;>
      simp [pyWordsAux, h, Char.isWhitespace]
  | cons c cs ih =>
    intro acc
    by_cases hw : c.isWhitespace
    · by_cases h : acc.isEmpty <;> simp [pyWordsAux, hw, h, ih]
    · simp [pyWordsAux, hw, ih]

theorem space_data : (" " : String).data = [' '] := by decide

theorem empty_data : ("" : String).data = [] := by decide

theorem wordCount_append_space (a b : String) :
    wordCount (a ++ " " ++ b) = wordCount a + wordCount b := by
  have hdata : (a ++ " " ++ b).data = a.data ++ ' ' :: b.data := by
    simp [String.data_append, space_data]
  simp [wordCount, hdata, pyWords, pyWordsAux_ws_append]

theorem wordCount_joinSp : ∀ l : List String, wordCount (joinSp l) = sumWc l := by
  intro l
  induction l with
  | nil => simp [joinSp, wordCount, sumWc, empty_data, pyWords, pyWordsAux]
  | cons s rest ih =>
    cases rest with
    | nil => simp [joinSp, sumWc]
    | cons s2 rest2 =>
      have : joinSp (s :: s2 :: rest2) = s ++ " " ++ joinSp (s2 :: rest2) := rfl
      rw [this, wordCount_append_space, ih]
      simp [sumWc]

theorem sumWc_append (a b : List String) : sumWc (a ++ b) = sumWc a + sumWc b := by
  simp [sumWc]

theorem segLoop_overlong (sim : String → String → ℚ) (threshold : ℚ)
    (maxLen minLen : Nat) :
    ∀ (rest : List String) (prev : String) (current : List String) (cwc : Nat),
      cwc = sumWc current →
      (cwc ≤ maxLen ∨ ∃ t, current = [t]) →
      ∀ seg ∈ segLoop sim threshold maxLen minLen rest prev current cwc,
        maxLen < wordCount seg →
        (∃ t ∈ rest, seg = t) ∨ ∃ t, current = [t] ∧ seg = t := by
  intro rest
  induction rest with
  | nil =>
    intro prev current cwc hsum hbound seg hseg hover
    by_cases hemp : current.isEmpty
    · simp [segLoop, hemp] at hseg
    · simp [segLoop, hemp] at hseg
      subst hseg
      rcases hbound with hle | ⟨t, ht⟩
      · rw [wordCount_joinSp, ← hsum] at hover
        omega
      · exact Or.inr ⟨t, ht, by rw [ht, joinSp]⟩
  | cons s rest' ih =>
    intro prev current cwc hsum hbound seg hseg hover
    by_cases hforce : maxLen < cwc + wordCount s
    · rw [segLoop, if_pos hforce] at hseg
      rcases List.mem_cons.mp hseg with hhead | htail
      · subst hhead
        rcases hbound with hle | ⟨t, ht⟩
        · rw [wordCount_joinSp, ← hsum] at hover
          omega
        · exact Or.inr ⟨t, ht, by rw [ht, joinSp]⟩
      · rcases ih s [s] (wordCount s) (by simp [sumWc]) (Or.inr ⟨s, rfl⟩)
          seg htail hover with ⟨t, htr, hts⟩ | ⟨t, hts, hseq⟩
        · exact Or.inl ⟨t, List.mem_cons_of_mem _ htr, hts⟩
        · rcases List.cons_eq_cons.mp hts with ⟨hst, _⟩
          exact Or.inl ⟨t, by rw [← hst]; exact List.mem_cons_self .., hseq⟩
    · rw [segLoop, if_neg hforce] at hseg
      by_cases hsplit : sim prev s < threshold ∧ minLen ≤ cwc
      · rw [if_pos hsplit] at hseg
        rcases List.mem_cons.mp hseg with hhead | htail
        · subst hhead
          rcases hbound with hle | ⟨t, ht⟩
          · rw [wordCount_joinSp, ← hsum] at hover
            omega
          · exact Or.inr ⟨t, ht, by rw [ht, joinSp]⟩
        · rcases ih s [s] (wordCount s) (by simp [sumWc]) (Or.inr ⟨s, rfl⟩)
            seg htail hover with ⟨t, htr, hts⟩ | ⟨t, hts, hseq⟩
          · exact Or.inl ⟨t, List.mem_cons_of_mem _ htr, hts⟩
          · rcases List.cons_eq_cons.mp hts with ⟨hst, _⟩
            exact Or.inl ⟨t, by rw [← hst]; exact List.mem_cons_self .., hseq⟩
      · rw [if_neg hsplit] at hseg
        have hsum' : cwc + wordCount s = sumWc (current ++ [s]) := by
          rw [sumWc_append, ← hsum]; simp [sumWc]
        rcases ih s (current ++ [s]) (cwc + wordCount s) hsum'
          (Or.inl (by omega)) seg hseg hover with htr | ⟨t, hts, hseq⟩
        · rcases htr with ⟨t, htr, hts⟩
          exact Or.inl ⟨t, List.mem_cons_of_mem _ htr, hts⟩
        · have hcur : current = [] ∧ s = t := by
            cases current with
            | nil => simpa using hts
            | cons a l => simp at hts
          exact Or.inl ⟨t, by rw [← hcur.2]; exact List.mem_cons_self .., hseq⟩

/-- Claim C1: every segment emitted by `segment_by_topic` whose word count
exceeds `max_segment_length` is a single input sentence whose own word count
already exceeds `max_segment_length`; equivalently, no emitted segment ever
exceeds the bound except through unavoidable single-sentence overflow. -/
theorem segment_length_bound (sim : String → String → ℚ) (threshold : ℚ)
    (maxLen minLen : Nat) (sentences : List String) (seg : String)
    (hseg : seg ∈ segment_by_topic sim threshold maxLen minLen sentences)
    (hover : maxLen < wordCount seg) :
    ∃ t ∈ sentences, seg = t ∧ maxLen < wordCount t := by
  cases sentences with
  | nil => simp [segment_by_topic] at hseg
  | cons s rest =>
    rcases segLoop_overlong sim threshold maxLen minLen rest s [s] (wordCount s)
      (by simp [sumWc]) (Or.inr ⟨s, rfl⟩) seg hseg hover with
        ⟨t, htr, hts⟩ | ⟨t, hts, hseq⟩
    · exact ⟨t, List.mem_cons_of_mem _ htr, hts, by rw [← hts]; exact hover⟩
    · rcases List.cons_eq_cons.mp hts with ⟨hst, _⟩
      exact ⟨t, by rw [← hst]; exact List.mem_cons_self ..,
        hseq, by rw [← hseq]; exact hover⟩

theorem segment_length_bound_witness :
    (("a a a" ∈ segment_by_topic (fun _ _ => 1) 0 2 0 ["a a a"]) ∧
      2 < wordCount "a a a") ∧
    ∃ t ∈ ["a a a"], "a a a" = t ∧ 2 < wordCount t :=
  ⟨⟨by decide, by decide⟩,
   segment_length_bound (fun _ _ => 1) 0 2 0 ["a a a"] "a a a"
     (by decide) (by decide)⟩

theorem segLoop_sim_independent (sim sim' : String → String → ℚ)
    (thr thr' : ℚ) (maxLen minLen : Nat) :
    ∀ (rest : List String) (prev : String) (current : List String) (cwc : Nat),
      cwc + sumWc rest < minLen →
      segLoop sim thr maxLen minLen rest prev current cwc =
      segLoop sim' thr' maxLen minLen rest prev current cwc := by
  intro rest
  induction rest with
  | nil => intro prev current cwc _; rfl
  | cons s rest' ih =>
    intro prev current cwc hlt
    have hs : sumWc (s :: rest') = wordCount s + sumWc rest' := by simp [sumWc]
    rw [hs] at hlt
    by_cases hforce : maxLen < cwc + wordCount s
    · rw [segLoop, segLoop, if_pos hforce, if_pos hforce, ih s [s] (wordCount s) (by omega)]
    · have hcwc : cwc < minLen := by omega
      have hcond : ¬(sim prev s < thr ∧ minLen ≤ cwc) := fun h => by omega
      have hcond' : ¬(sim' prev s < thr' ∧ minLen ≤ cwc) := fun h => by omega
      rw [segLoop, segLoop, if_neg hforce, if_neg hforce, if_neg hcond, if_neg hcond',
        ih s (current ++ [s]) (cwc + wordCount s) (by omega)]

/-- Claim C6: a low-similarity boundary is introduced only when the running
word count already reaches `min_segment_length`; hence when the cumulative
word count of the whole input stays below `min_segment_length`, the
similarity oracle and threshold cannot influence the segmentation at all —
no similarity-triggered split ever occurs. -/
theorem segment_no_similarity_split (sim sim' : String → String → ℚ)
    (thr thr' : ℚ) (maxLen minLen : Nat) (sentences : List String)
    (h : sumWc sentences < minLen) :
    segment_by_topic sim thr maxLen minLen sentences =
    segment_by_topic sim' thr' maxLen minLen sentences := by
  cases sentences with
  | nil => rfl
  | cons s rest =>
    have hs : sumWc (s :: rest) = wordCount s + sumWc rest := by simp [sumWc]
    rw [hs] at h
    exact segLoop_sim_independent sim sim' thr thr' maxLen minLen rest s [s]
      (wordCount s) (by omega)

theorem segment_no_similarity_split_witness :
    sumWc ["a b", "c d"] < 10 ∧
    segment_by_topic (fun _ _ => 0) 1 500 10 ["a b", "c d"] =
      segment_by_topic (fun _ _ => 1) 0 500 10 ["a b", "c d"] :=
  ⟨by decide,
   segment_no_similarity_split (fun _ _ => 0) (fun _ _ => 1) 1 0 500 10
     ["a b", "c d"] (by decide)⟩

/-- Claim C5: when the model output fails JSON parsing,
`generate_structured_notes` does not raise — it returns the fully populated
fallback record: a synthetic parsing-error topic, a truncated prefix of the
raw input segment as summary, and empty lists everywhere else. -/
theorem extract_parse_failure_fallback (ctx : Ctx) (content segment : String)
    (hparse : ctx.parse (gsnClean content) = none) :
    generate_structured_notes ctx (.ok content) segment =
      .ok { topic := "Error parsing segment"
            summary := pyTake segment 200 ++ "..."
            pegasus_summary := ""
            key_points := []
            action_items := []
            questions := []
            keywords := []
            segment_id := none } := by
  simp [generate_structured_notes, hparse, parsingErrorFallback]

theorem extract_parse_failure_fallback_witness :
    ctxC5.parse (gsnClean "not json") = none ∧
    generate_structured_notes ctxC5 (.ok "not json") "hello world" =
      .ok { topic := "Error parsing segment"
            summary := pyTake "hello world" 200 ++ "..."
            pegasus_summary := ""
            key_points := []
            action_items := []
            questions := []
            keywords := []
            segment_id := none } :=
  ⟨rfl, extract_parse_failure_fallback ctxC5 "not json" "hello world" rfl⟩

/-- Claim C8: `all_keywords` contains exactly the keywords occurring in
some record, each exactly once, in strictly ascending order. -/
theorem all_keywords_sorted_dedup (segments : List StructuredData) :
    (∀ k, k ∈ extract_unique_keywords segments ↔ ∃ sd ∈ segments, k ∈ sd.keywords) ∧
    (extract_unique_keywords segments).Pairwise (· < ·) := by
  constructor
  · intro k
    rw [extract_unique_keywords, List.mem_insertionSort, List.mem_dedup,
      List.mem_flatten]
    constructor
    · rintro ⟨l, hl, hkl⟩
      rcases List.mem_map.mp hl with ⟨sd, hsd, rfl⟩
      exact ⟨sd, hsd, hkl⟩
    · rintro ⟨sd, hsd, hk⟩
      exact ⟨sd.keywords, List.mem_map.mpr ⟨sd, hsd, rfl⟩, hk⟩
  · have hsorted : (extract_unique_keywords segments).Sorted (fun a b : String => a ≤ b) :=
      List.sorted_insertionSort _ _
    have hnodup : (extract_unique_keywords segments).Nodup := by
      rw [extract_unique_keywords]
      exact ((List.perm_insertionSort _ _).nodup_iff).mpr (List.nodup_dedup _)
    exact hsorted.lt_of_le hnodup

theorem segAttempts_count_ne (ctx : Ctx) (delay : ℚ) (i n : Nat) (segment : String)
    (j : Nat) (hj : j ≠ i) :
    ∀ (fuel c : Nat),
      countAttempts j (segAttempts ctx delay i n segment c fuel).1 = 0 := by
  intro fuel
  induction fuel with
  | zero => intro c; simp [segAttempts, countAttempts]
  | succ fuel ih =>
    intro c
    cases hg : generate_structured_notes ctx (ctx.resp c) segment with
    | ok sd =>
      by_cases hin : i < n <;>
        simp [segAttempts, hg, hin, countAttempts, List.countP_cons, Ne.symm hj]
    | error msg =>
      by_cases hfatal : isFatalError msg
      · simp [segAttempts, hg, hfatal, countAttempts, List.countP_cons, Ne.symm hj]
      · rcases hrec : segAttempts ctx delay i n segment (c + 1) fuel with ⟨evs, c', r⟩
        have h := ih (c + 1)
        rw [hrec] at h
        simp [segAttempts, hg, hfatal, hrec, countAttempts, List.countP_cons,
          Ne.symm hj] at h ⊢
        exact h

theorem segAttempts_count_le (ctx : Ctx) (delay : ℚ) (i n : Nat) (segment : String) :
    ∀ (fuel c : Nat),
      countAttempts i (segAttempts ctx delay i n segment c fuel).1 ≤ fuel := by
  intro fuel
  induction fuel with
  | zero => intro c; simp [segAttempts, countAttempts]
  | succ fuel ih =>
    intro c
    cases hg : generate_structured_notes ctx (ctx.resp c) segment with
    | ok sd =>
      by_cases hin : i < n <;>
        simp [segAttempts, hg, hin, countAttempts, List.countP_cons]
    | error msg =>
      by_cases hfatal : isFatalError msg
      · simp [segAttempts, hg, hfatal, countAttempts, List.countP_cons]
      · rcases hrec : segAttempts ctx delay i n segment (c + 1) fuel with ⟨evs, c', r⟩
        have h := ih (c + 1)
        rw [hrec] at h
        simp [segAttempts, hg, hfatal, hrec, countAttempts, List.countP_cons] at h ⊢
        omega

theorem countAttempts_append (j : Nat) (a b : List Event) :
    countAttempts j (a ++ b) = countAttempts j a + countAttempts j b := by
  simp [countAttempts, List.countP_append]

theorem runSegs_count_lt (ctx : Ctx) (delay : ℚ) (n j : Nat) :
    ∀ (segs : List String) (i c : Nat), j < i →
      countAttempts j (runSegs ctx delay n segs i c).1 = 0 := by
  intro segs
  induction segs with
  | nil => intro i c _; simp [runSegs, countAttempts]
  | cons segment rest ih =>
    intro i c hji
    rcases hs : segAttempts ctx delay i n segment c 3 with ⟨evs, c', r⟩
    have hevs := segAttempts_count_ne ctx delay i n segment j (by omega) 3 c
    rw [hs] at hevs
    cases r with
    | error msg => simp only [runSegs, hs]; exact hevs
    | ok osd =>
      rcases hrun : runSegs ctx delay n rest (i + 1) c' with ⟨evs2, c2, r2⟩
      have h2 := ih (i + 1) c' (by omega)
      rw [hrun] at h2
      simp only [runSegs, hs, hrun]
      rw [countAttempts_append]
      simp only at hevs h2
      omega

theorem runSegs_count_le (ctx : Ctx) (delay : ℚ) (n j : Nat) :
    ∀ (segs : List String) (i c : Nat),
      countAttempts j (runSegs ctx delay n segs i c).1 ≤ 3 := by
  intro segs
  induction segs with
  | nil => intro i c; simp [runSegs, countAttempts]
  | cons segment rest ih =>
    intro i c
    rcases hs : segAttempts ctx delay i n segment c 3 with ⟨evs, c', r⟩
    cases r with
    | error msg =>
      by_cases hji : j = i
      · subst hji
        have h := segAttempts_count_le ctx delay j n segment 3 c
        rw [hs] at h
        simp only [runSegs, hs]
        exact h
      · have h := segAttempts_count_ne ctx delay i n segment j hji 3 c
        rw [hs] at h
        simp only [runSegs, hs]
        have h0 : countAttempts j evs = 0 := h
        omega
    | ok osd =>
      rcases hrun : runSegs ctx delay n rest (i + 1) c' with ⟨evs2, c2, r2⟩
      by_cases hji : j = i
      · subst hji
        have h1 := segAttempts_count_le ctx delay j n segment 3 c
        rw [hs] at h1
        have h2 := runSegs_count_lt ctx delay n j rest (j + 1) c' (by omega)
        rw [hrun] at h2
        simp only [runSegs, hs, hrun]
        rw [countAttempts_append]
        simp only at h1 h2
        omega
      · have h1 := segAttempts_count_ne ctx delay i n segment j hji 3 c
        rw [hs] at h1
        have h2 := ih (i + 1) c'
        rw [hrun] at h2
        simp only [runSegs, hs, hrun]
        rw [countAttempts_append]
        simp only at h1 h2
        omega

theorem segAttempts_sleepsOk (ctx : Ctx) (delay : ℚ) (i n : Nat) (segment : String) :
    ∀ (fuel c : Nat) (tail : List Event), sleepsOk ctx delay tail = true →
      sleepsOk ctx delay ((segAttempts ctx delay i n segment c fuel).1 ++ tail) = true := by
  intro fuel
  induction fuel with
  | zero => intro c tail htail; simpa [segAttempts] using htail
  | succ fuel ih =>
    intro c tail htail
    cases hg : generate_structured_notes ctx (ctx.resp c) segment with
    | ok sd =>
      by_cases hin : i < n <;>
        simp [segAttempts, hg, hin, sleepsOk, htail]
    | error msg =>
      by_cases hfatal : isFatalError msg
      · simp [segAttempts, hg, hfatal, sleepsOk, htail]
      · rcases hrec : segAttempts ctx delay i n segment (c + 1) fuel with ⟨evs, c', r⟩
        have h := ih (c + 1) tail htail
        rw [hrec] at h
        simp [segAttempts, hg, hfatal, hrec, sleepsOk, h]

theorem runSegs_sleepsOk (ctx : Ctx) (delay : ℚ) (n : Nat) :
    ∀ (segs : List String) (i c : Nat),
      sleepsOk ctx delay (runSegs ctx delay n segs i c).1 = true := by
  intro segs
  induction segs with
  | nil => intro i c; simp [runSegs, sleepsOk]
  | cons segment rest ih =>
    intro i c
    rcases hs : segAttempts ctx delay i n segment c 3 with ⟨evs, c', r⟩
    have hevs := segAttempts_sleepsOk ctx delay i n segment 3 c
    rw [hs] at hevs
    cases r with
    | error msg =>
      have h := hevs [] (by simp [sleepsOk])
      rw [List.append_nil] at h
      simp [runSegs, hs, h]
    | ok osd =>
      rcases hrun : runSegs ctx delay n rest (i + 1) c' with ⟨evs2, c2, r2⟩
      have h2 := ih (i + 1) c'
      rw [hrun] at h2
      simp [runSegs, hs, hrun, hevs evs2 h2]

/-- Claim C3: in every run of `process_all_segments` each segment is
attempted at most `max_retries = 3` times, and every non-fatal failed
attempt is immediately followed by a backoff sleep of `10` seconds when the
error is rate-limit classified and `delay_seconds * 2` otherwise. -/
theorem retry_attempt_bound_and_backoff (ctx : Ctx) (segments : List String)
    (delay : ℚ) :
    (∀ i, countAttempts i (process_all_segments ctx segments delay).1 ≤ 3) ∧
    sleepsOk ctx delay (process_all_segments ctx segments delay).1 = true := by
  rcases hr : runSegs ctx delay segments.length segments 1 0 with ⟨evs, cN, r⟩
  constructor
  · intro i
    have h := runSegs_count_le ctx delay segments.length i segments 1 0
    rw [hr] at h
    simpa [process_all_segments, hr] using h
  · have h := runSegs_sleepsOk ctx delay segments.length segments 1 0
    rw [hr] at h
    simpa [process_all_segments, hr] using h

theorem segAttempts_mono (ctx : Ctx) (delay : ℚ) (i n : Nat) (segment : String) :
    ∀ (fuel c : Nat), c ≤ (segAttempts ctx delay i n segment c fuel).2.1 := by
  intro fuel
  induction fuel with
  | zero => intro c; simp [segAttempts]
  | succ fuel ih =>
    intro c
    cases hg : generate_structured_notes ctx (ctx.resp c) segment with
    | ok sd => simp [segAttempts, hg]
    | error msg =>
      by_cases hfatal : isFatalError msg
      · simp [segAttempts, hg, hfatal]
      · rcases hrec : segAttempts ctx delay i n segment (c + 1) fuel with ⟨evs, c', r⟩
        have h := ih (c + 1)
        rw [hrec] at h
        simp only [segAttempts, hg, hfatal, Bool.false_eq_true, if_false, hrec]
        simp only at h
        omega

theorem segAttempts_mem_attempt (ctx : Ctx) (delay : ℚ) (i n : Nat) (segment : String) :
    ∀ (fuel c : Nat) (i' k : Nat) (s' : String),
      Event.attempt i' k s' ∈ (segAttempts ctx delay i n segment c fuel).1 →
      i' = i ∧ s' = segment ∧ c ≤ k ∧
        k < (segAttempts ctx delay i n segment c fuel).2.1 := by
  intro fuel
  induction fuel with
  | zero => intro c i' k s' h; simp [segAttempts] at h
  | succ fuel ih =>
    intro c i' k s' h
    cases hg : generate_structured_notes ctx (ctx.resp c) segment with
    | ok sd =>
      rw [segAttempts, hg] at h
      have hc1 : (segAttempts ctx delay i n segment c (fuel + 1)).2.1 = c + 1 := by
        simp [segAttempts, hg]
      rw [hc1]
      rcases List.mem_cons.mp h with hh | ht
      · injection hh with h1 h2 h3
        subst h1; subst h2; subst h3
        exact ⟨rfl, rfl, by omega, by omega⟩
      · exfalso
        by_cases hin : i < n <;> simp [hin] at ht
    | error msg =>
      by_cases hfatal : isFatalError msg
      · rw [segAttempts, hg] at h
        simp only [hfatal, if_true] at h
        have hc1 : (segAttempts ctx delay i n segment c (fuel + 1)).2.1 = c + 1 := by
          simp [segAttempts, hg, hfatal]
        rw [hc1]
        rcases List.mem_cons.mp h with hh | ht
        · injection hh with h1 h2 h3
          subst h1; subst h2; subst h3
          exact ⟨rfl, rfl, by omega, by omega⟩
        · simp at ht
      · rcases hrec : segAttempts ctx delay i n segment (c + 1) fuel with ⟨evs, c', r⟩
        rw [segAttempts, hg] at h
        simp only [hfatal, Bool.false_eq_true, if_false, hrec] at h
        have hc1 : (segAttempts ctx delay i n segment c (fuel + 1)).2.1 = c' := by
          simp [segAttempts, hg, hfatal, hrec]
        rw [hc1]
        have hmono : c + 1 ≤ c' := by
          have hm := segAttempts_mono ctx delay i n segment fuel (c + 1)
          rw [hrec] at hm
          exact hm
        rcases List.mem_cons.mp h with hh | ht
        · injection hh with h1 h2 h3
          subst h1; subst h2; subst h3
          exact ⟨rfl, rfl, by omega, by omega⟩
        · rcases List.mem_cons.mp ht with hh2 | ht2
          · exact absurd hh2 (by simp)
          · have hih := ih (c + 1) i' k s' (by rw [hrec]; exact ht2)
            rw [hrec] at hih
            obtain ⟨e1, e2, e3, e4⟩ := hih
            have e4' : k < c' := e4
            exact ⟨e1, e2, by omega, e4'⟩

theorem segAttempts_fatal (ctx : Ctx) (delay : ℚ) (i n : Nat) (segment : String) :
    ∀ (fuel c k : Nat) (msg : String),
      Event.attempt i k segment ∈ (segAttempts ctx delay i n segment c fuel).1 →
      generate_structured_notes ctx (ctx.resp k) segment = .error msg →
      isFatalError msg = true →
      (segAttempts ctx delay i n segment c fuel).2.2 = .error msg ∧
        (segAttempts ctx delay i n segment c fuel).2.1 = k + 1 := by
  intro fuel
  induction fuel with
  | zero => intro c k msg h _ _; simp [segAttempts] at h
  | succ fuel ih =>
    intro c k msg h herr hfat
    cases hg : generate_structured_notes ctx (ctx.resp c) segment with
    | ok sd =>
      exfalso
      rw [segAttempts, hg] at h
      rcases List.mem_cons.mp h with hh | ht
      · injection hh with h1 h2 h3
        subst h2
        rw [hg] at herr
        cases herr
      · by_cases hin : i < n <;> simp [hin] at ht
    | error msg0 =>
      by_cases hfatal : isFatalError msg0
      · rw [segAttempts, hg] at h
        simp only [hfatal, if_true] at h
        rcases List.mem_cons.mp h with hh | ht
        · injection hh with h1 h2 h3
          subst h2
          rw [hg] at herr
          injection herr with hmsg
          subst hmsg
          constructor <;> simp [segAttempts, hg, hfatal]
        · simp at ht
      · rcases hrec : segAttempts ctx delay i n segment (c + 1) fuel with ⟨evs, c', r⟩
        rw [segAttempts, hg] at h
        simp only [hfatal, Bool.false_eq_true, if_false, hrec] at h
        rcases List.mem_cons.mp h with hh | ht
        · injection hh with h1 h2 h3
          subst h2
          rw [hg] at herr
          injection herr with hmsg
          subst hmsg
          exact absurd hfat hfatal
        · rcases List.mem_cons.mp ht with hh2 | ht2
          · exact absurd hh2 (by simp)
          · have hih := ih (c + 1) k msg (by rw [hrec]; exact ht2) herr hfat
            rw [hrec] at hih
            obtain ⟨hr2, hc2⟩ := hih
            have hr2' : r = .error msg := hr2
            have hc2' : c' = k + 1 := hc2
            constructor <;> simp [segAttempts, hg, hfatal, hrec, hr2', hc2']

theorem runSegs_mono (ctx : Ctx) (delay : ℚ) (n : Nat) :
    ∀ (segs : List String) (i c : Nat), c ≤ (runSegs ctx delay n segs i c).2.1 := by
  intro segs
  induction segs with
  | nil => intro i c; simp [runSegs]
  | cons segment rest ih =>
    intro i c
    rcases hs : segAttempts ctx delay i n segment c 3 with ⟨evs, c', r⟩
    have h1 : c ≤ c' := by
      have hm := segAttempts_mono ctx delay i n segment 3 c
      rw [hs] at hm
      exact hm
    cases r with
    | error msg =>
      simp only [runSegs, hs]
      exact h1
    | ok osd =>
      rcases hrun : runSegs ctx delay n rest (i + 1) c' with ⟨evs2, c2, r2⟩
      have h2 : c' ≤ c2 := by
        have hm := ih (i + 1) c'
        rw [hrun] at hm
        exact hm
      simp only [runSegs, hs, hrun]
      omega

theorem runSegs_mem_attempt (ctx : Ctx) (delay : ℚ) (n : Nat) :
    ∀ (segs : List String) (i c : Nat) (i' k : Nat) (s' : String),
      Event.attempt i' k s' ∈ (runSegs ctx delay n segs i c).1 →
      c ≤ k ∧ k < (runSegs ctx delay n segs i c).2.1 := by
  intro segs
  induction segs with
  | nil => intro i c i' k s' h; simp [runSegs] at h
  | cons segment rest ih =>
    intro i c i' k s' h
    rcases hs : segAttempts ctx delay i n segment c 3 with ⟨evs, c', r⟩
    cases r with
    | error msg =>
      simp only [runSegs, hs] at h ⊢
      have hm := segAttempts_mem_attempt ctx delay i n segment 3 c i' k s' (by rw [hs]; exact h)
      rw [hs] at hm
      exact ⟨hm.2.2.1, hm.2.2.2⟩
    | ok osd =>
      rcases hrun : runSegs ctx delay n rest (i + 1) c' with ⟨evs2, c2, r2⟩
      simp only [runSegs, hs, hrun] at h ⊢
      have hc2 : c' ≤ c2 := by
        have hm := runSegs_mono ctx delay n rest (i + 1) c'
        rw [hrun] at hm
        exact hm
      rcases List.mem_append.mp h with h1 | h2
      · have hm := segAttempts_mem_attempt ctx delay i n segment 3 c i' k s' (by rw [hs]; exact h1)
        rw [hs] at hm
        have hm1 : c ≤ k := hm.2.2.1
        have hm2 : k < c' := hm.2.2.2
        omega
      · have hm := ih (i + 1) c' i' k s' (by rw [hrun]; exact h2)
        rw [hrun] at hm
        have hm1 : c' ≤ k := hm.1
        have hm2 : k < c2 := hm.2
        have hc1 : c ≤ c' := by
          have hmm := segAttempts_mono ctx delay i n segment 3 c
          rw [hs] at hmm
          exact hmm
        omega

theorem runSegs_fatal (ctx : Ctx) (delay : ℚ) (n : Nat) :
    ∀ (segs : List String) (i c : Nat) (i' k : Nat) (s' msg : String),
      Event.attempt i' k s' ∈ (runSegs ctx delay n segs i c).1 →
      generate_structured_notes ctx (ctx.resp k) s' = .error msg →
      isFatalError msg = true →
      (runSegs ctx delay n segs i c).2.2 = .error msg ∧
        (runSegs ctx delay n segs i c).2.1 = k + 1 := by
  intro segs
  induction segs with
  | nil => intro i c i' k s' msg h _ _; simp [runSegs] at h
  | cons segment rest ih =>
    intro i c i' k s' msg h herr hfat
    rcases hs : segAttempts ctx delay i n segment c 3 with ⟨evs, c', r⟩
    cases r with
    | error msg0 =>
      simp only [runSegs, hs] at h ⊢
      have hm := segAttempts_mem_attempt ctx delay i n segment 3 c i' k s' (by rw [hs]; exact h)
      rw [hs] at hm
      obtain ⟨hi, hseg, -, -⟩ := hm
      subst hi; subst hseg
      have hf := segAttempts_fatal ctx delay i' n s' 3 c k msg (by rw [hs]; exact h) herr hfat
      rw [hs] at hf
      obtain ⟨hf1, hf2⟩ := hf
      have hf1' : Except.error (ε := String) (α := Option StructuredData) msg0 = .error msg := hf1
      have hf2' : c' = k + 1 := hf2
      injection hf1' with hmsg
      subst hmsg
      exact ⟨rfl, hf2'⟩
    | ok osd =>
      rcases hrun : runSegs ctx delay n rest (i + 1) c' with ⟨evs2, c2, r2⟩
      simp only [runSegs, hs, hrun] at h ⊢
      rcases List.mem_append.mp h with h1 | h2
      · exfalso
        have hm := segAttempts_mem_attempt ctx delay i n segment 3 c i' k s' (by rw [hs]; exact h1)
        rw [hs] at hm
        obtain ⟨hi, hseg, -, -⟩ := hm
        subst hi; subst hseg
        have hf := segAttempts_fatal ctx delay i' n s' 3 c k msg (by rw [hs]; exact h1) herr hfat
        rw [hs] at hf
        have hf1 : Except.ok (ε := String) osd = .error msg := hf.1
        cases hf1
      · have hih := ih (i + 1) c' i' k s' msg (by rw [hrun]; exact h2) herr hfat
        rw [hrun] at hih
        obtain ⟨hih1, hih2⟩ := hih
        have hih1' : r2 = .error msg := hih1
        have hih2' : c2 = k + 1 := hih2
        subst hih1'
        exact ⟨rfl, hih2'⟩

/-- Claim C2: if any extraction attempt in a `process_all_segments` run
fails with the credential-error class (`"401"` and `"invalid_api_key"` in
the message), the whole batch aborts immediately by re-raising that error:
the run's outcome is that error, that attempt is the run's last — the
segment is not retried and no later segment is attempted. -/
theorem fatal_error_aborts (ctx : Ctx) (segments : List String) (delay : ℚ)
    (i k : Nat) (s msg : String)
    (hmem : Event.attempt i k s ∈ (process_all_segments ctx segments delay).1)
    (herr : generate_structured_notes ctx (ctx.resp k) s = .error msg)
    (hfatal : isFatalError msg = true) :
    (process_all_segments ctx segments delay).2 = .error msg ∧
    ∀ i' k' s', Event.attempt i' k' s' ∈ (process_all_segments ctx segments delay).1 →
      k' ≤ k := by
  rcases hr : runSegs ctx delay segments.length segments 1 0 with ⟨evs, cN, r⟩
  have hmem' : Event.attempt i k s ∈ evs := by
    have h := hmem
    simp only [process_all_segments, hr] at h
    exact h
  have hf := runSegs_fatal ctx delay segments.length segments 1 0 i k s msg
    (by rw [hr]; exact hmem') herr hfatal
  rw [hr] at hf
  obtain ⟨hf1, hf2⟩ := hf
  have hf1' : r = .error msg := hf1
  have hf2' : cN = k + 1 := hf2
  constructor
  · simp only [process_all_segments, hr, hf1']
    rfl
  · intro i' k' s' hmem2
    have hmem2' : Event.attempt i' k' s' ∈ evs := by
      simp only [process_all_segments, hr] at hmem2
      exact hmem2
    have hm := runSegs_mem_attempt ctx delay segments.length segments 1 0 i' k' s'
      (by rw [hr]; exact hmem2')
    rw [hr] at hm
    have : k' < cN := hm.2
    omega

theorem fatal_error_aborts_witness :
    (Event.attempt 1 0 "a" ∈ (process_all_segments ctxC2 ["a", "b"] 1).1 ∧
      generate_structured_notes ctxC2 (ctxC2.resp 0) "a" =
        .error "Error code 401 invalid_api_key" ∧
      isFatalError "Error code 401 invalid_api_key" = true) ∧
    (process_all_segments ctxC2 ["a", "b"] 1).2 =
        .error "Error code 401 invalid_api_key" ∧
    ∀ i' k' s',
      Event.attempt i' k' s' ∈ (process_all_segments ctxC2 ["a", "b"] 1).1 →
        k' ≤ 0 :=
  ⟨⟨by decide, rfl, by decide⟩,
   fatal_error_aborts ctxC2 ["a", "b"] 1 1 0 "a" "Error code 401 invalid_api_key"
     (by decide) rfl (by decide)⟩

theorem segAttempts_no_fatal_ok (ctx : Ctx) (delay : ℚ) (i n : Nat) (segment : String)
    (hnf : ∀ k s msg, generate_structured_notes ctx (ctx.resp k) s = .error msg →
      isFatalError msg = false) :
    ∀ (fuel c : Nat), ∃ osd,
      (segAttempts ctx delay i n segment c fuel).2.2 = .ok osd ∧
      (osd = none ∨ ∃ sd, osd = some sd ∧ sd.segment_id = some i) := by
  intro fuel
  induction fuel with
  | zero => intro c; exact ⟨none, rfl, Or.inl rfl⟩
  | succ fuel ih =>
    intro c
    cases hg : generate_structured_notes ctx (ctx.resp c) segment with
    | ok sd =>
      refine ⟨some { sd with segment_id := some i }, ?_, Or.inr ⟨_, rfl, rfl⟩⟩
      simp [segAttempts, hg]
    | error msg =>
      have hfatal : isFatalError msg = false := hnf c segment msg hg
      rcases hrec : segAttempts ctx delay i n segment (c + 1) fuel with ⟨evs, c', r⟩
      obtain ⟨osd, hosd, hprop⟩ := ih (c + 1)
      rw [hrec] at hosd
      have hosd' : r = .ok osd := hosd
      refine ⟨osd, ?_, hprop⟩
      simp [segAttempts, hg, hfatal, hrec, hosd']

theorem segAttempts_ok_some (ctx : Ctx) (delay : ℚ) (i n : Nat) (segment : String) :
    ∀ (fuel c : Nat) (sd : StructuredData),
      (segAttempts ctx delay i n segment c fuel).2.2 = .ok (some sd) →
      ∃ k sd0,
        Event.attempt i k segment ∈ (segAttempts ctx delay i n segment c fuel).1 ∧
        generate_structured_notes ctx (ctx.resp k) segment = .ok sd0 ∧
        sd = { sd0 with segment_id := some i } := by
  intro fuel
  induction fuel with
  | zero =>
    intro c sd h
    exact absurd h (by simp [segAttempts])
  | succ fuel ih =>
    intro c sd h
    cases hg : generate_structured_notes ctx (ctx.resp c) segment with
    | ok sd1 =>
      have hres : (segAttempts ctx delay i n segment c (fuel + 1)).2.2 =
          .ok (some { sd1 with segment_id := some i }) := by
        simp [segAttempts, hg]
      rw [hres] at h
      injection h with h1
      injection h1 with h2
      refine ⟨c, sd1, ?_, hg, h2.symm⟩
      rw [segAttempts, hg]
      exact List.mem_cons_self ..
    | error msg =>
      by_cases hfatal : isFatalError msg
      · have hres : (segAttempts ctx delay i n segment c (fuel + 1)).2.2 =
            .error msg := by
          simp [segAttempts, hg, hfatal]
        rw [hres] at h
        cases h
      · rcases hrec : segAttempts ctx delay i n segment (c + 1) fuel with ⟨evs, c', r⟩
        have hres : (segAttempts ctx delay i n segment c (fuel + 1)).2.2 = r := by
          simp [segAttempts, hg, hfatal, hrec]
        rw [hres] at h
        obtain ⟨k, sd0, hmem, hok, heq⟩ := ih (c + 1) sd (by rw [hrec]; exact h)
        rw [hrec] at hmem
        have hmem' : Event.attempt i k segment ∈ evs := hmem
        refine ⟨k, sd0, ?_, hok, heq⟩
        rw [segAttempts, hg]
        simp only [hfatal, Bool.false_eq_true, if_false, hrec]
        exact List.mem_cons_of_mem _ (List.mem_cons_of_mem _ hmem')

theorem runSegs_no_fatal_ok (ctx : Ctx) (delay : ℚ) (n : Nat)
    (hnf : ∀ k s msg, generate_structured_notes ctx (ctx.resp k) s = .error msg →
      isFatalError msg = false) :
    ∀ (segs : List String) (i c : Nat), ∃ sds,
      (runSegs ctx delay n segs i c).2.2 = .ok sds ∧
      List.Sublist (sds.map fun sd => sd.segment_id)
        ((List.range' i segs.length).map some) ∧
      ∀ sd ∈ sds, ∃ j k s sd0, sd.segment_id = some j ∧ i ≤ j ∧
        segs.get? (j - i) = some s ∧
        Event.attempt j k s ∈ (runSegs ctx delay n segs i c).1 ∧
        generate_structured_notes ctx (ctx.resp k) s = .ok sd0 ∧
        sd = { sd0 with segment_id := some j } := by
  intro segs
  induction segs with
  | nil =>
    intro i c
    exact ⟨[], rfl, by simp, by simp⟩
  | cons segment rest ih =>
    intro i c
    rcases hs : segAttempts ctx delay i n segment c 3 with ⟨evs, c', r⟩
    obtain ⟨osd, hosd, hprop⟩ := segAttempts_no_fatal_ok ctx delay i n segment hnf 3 c
    rw [hs] at hosd
    have hosd' : r = .ok osd := hosd
    subst hosd'
    rcases hrun : runSegs ctx delay n rest (i + 1) c' with ⟨evs2, c2, r2⟩
    obtain ⟨sds2, hsds2, hsub2, hprov2⟩ := ih (i + 1) c'
    rw [hrun] at hsds2
    have hsds2' : r2 = .ok sds2 := hsds2
    subst hsds2'
    have hrange : (List.range' i (rest.length + 1)).map some =
        some i :: (List.range' (i + 1) rest.length).map some := rfl
    have hprovtail : ∀ sd ∈ sds2, ∃ j k s sd0, sd.segment_id = some j ∧ i ≤ j ∧
        (segment :: rest).get? (j - i) = some s ∧
        Event.attempt j k s ∈ (runSegs ctx delay n (segment :: rest) i c).1 ∧
        generate_structured_notes ctx (ctx.resp k) s = .ok sd0 ∧
        sd = { sd0 with segment_id := some j } := by
      intro sd hsd
      obtain ⟨j, k, s, sd0, hid, hij, hget, hmem, hok2, heq⟩ := hprov2 sd hsd
      have hmem2 : Event.attempt j k s ∈ evs2 := by
        rw [hrun] at hmem
        exact hmem
      have hidx : j - i = (j - (i + 1)) + 1 := by omega
      refine ⟨j, k, s, sd0, hid, by omega, ?_, ?_, hok2, heq⟩
      · rw [hidx]
        simpa using hget
      · simp only [runSegs, hs, hrun]
        exact List.mem_append.mpr (Or.inr hmem2)
    rcases hprop with hnone | ⟨sd, hsdeq, hid⟩
    · subst hnone
      refine ⟨sds2, ?_, ?_, hprovtail⟩
      · simp [runSegs, hs, hrun, Except.map]
      · simpa [hrange] using hsub2.cons (some i)
    · subst hsdeq
      have hsome : (segAttempts ctx delay i n segment c 3).2.2 = .ok (some sd) := by
        rw [hs]
      obtain ⟨k0, sd0, hmem0, hok0, heq0⟩ :=
        segAttempts_ok_some ctx delay i n segment 3 c sd hsome
      have hmem0' : Event.attempt i k0 segment ∈ evs := by
        rw [hs] at hmem0
        exact hmem0
      refine ⟨sd :: sds2, ?_, ?_, ?_⟩
      · simp [runSegs, hs, hrun, Except.map]
      · simp only [List.map_cons, hid, hrange]
        exact hsub2.cons₂ (some i)
      · intro sd' hsd'
        rcases List.mem_cons.mp hsd' with hh | ht
        · subst hh
          refine ⟨i, k0, segment, sd0, hid, Nat.le_refl i, ?_, ?_, hok0, heq0⟩
          · simp [Nat.sub_self]
          · simp only [runSegs, hs, hrun]
            exact List.mem_append.mpr (Or.inl hmem0')
        · exact hprovtail sd' ht

/-- Claim C4: in a run without fatal errors the driver never raises: every
segment whose three attempts all fail is absent from the output while
processing continues, so the final `segments` list is at most as long as
the input, and its `segment_id` values are a sublist of the 1-based input
indices — strictly ascending, no duplicates.  Each output record was
extracted by a successful attempt on the input segment its `segment_id`
names (the originating segment), and consequently an index all of whose
attempts failed is carried by no output record. -/
theorem failed_segments_dropped (ctx : Ctx) (segments : List String) (delay : ℚ)
    (hnf : ∀ k s msg, generate_structured_notes ctx (ctx.resp k) s = .error msg →
      isFatalError msg = false) :
    ∃ out, (process_all_segments ctx segments delay).2 = .ok out ∧
      out.segments.length ≤ segments.length ∧
      List.Sublist (out.segments.map fun sd => sd.segment_id)
        ((List.range' 1 segments.length).map some) ∧
      List.Pairwise (· < ·) (out.segments.map fun sd => sd.segment_id.getD 0) ∧
      (∀ sd ∈ out.segments, ∃ i k s sd0, sd.segment_id = some i ∧ 1 ≤ i ∧
        segments.get? (i - 1) = some s ∧
        Event.attempt i k s ∈ (process_all_segments ctx segments delay).1 ∧
        generate_structured_notes ctx (ctx.resp k) s = .ok sd0 ∧
        sd = { sd0 with segment_id := some i }) ∧
      ∀ i, (∀ k s, Event.attempt i k s ∈ (process_all_segments ctx segments delay).1 →
          ∃ msg, generate_structured_notes ctx (ctx.resp k) s = .error msg) →
        ∀ sd ∈ out.segments, sd.segment_id ≠ some i := by
  rcases hr : runSegs ctx delay segments.length segments 1 0 with ⟨evs, cN, r⟩
  obtain ⟨sds, hok, hsub, hprov⟩ :=
    runSegs_no_fatal_ok ctx delay segments.length hnf segments 1 0
  rw [hr] at hok
  have hok' : r = .ok sds := hok
  subst hok'
  have hsub' : List.Sublist (sds.map fun sd => sd.segment_id)
      ((List.range' 1 segments.length).map some) := hsub
  have hlen : sds.length ≤ segments.length := by
    have h := hsub'.length_le
    simpa using h
  have hpair : List.Pairwise (· < ·) (sds.map fun sd => sd.segment_id.getD 0) := by
    have hmap := hsub'.map (fun o : Option Nat => o.getD 0)
    rw [List.map_map, List.map_map] at hmap
    have hpr : List.Pairwise (· < ·) ((List.range' 1 segments.length).map
        ((fun o : Option Nat => o.getD 0) ∘ some)) := by
      have hid : ((List.range' 1 segments.length).map
          ((fun o : Option Nat => o.getD 0) ∘ some)) = List.range' 1 segments.length :=
        List.map_id' _
      rw [hid]
      exact List.pairwise_lt_range' 1 segments.length
    exact List.Pairwise.sublist hmap hpr
  have hevs : (process_all_segments ctx segments delay).1 = evs := by
    simp only [process_all_segments, hr]
  have hprov' : ∀ sd ∈ sds, ∃ i k s sd0, sd.segment_id = some i ∧ 1 ≤ i ∧
      segments.get? (i - 1) = some s ∧
      Event.attempt i k s ∈ (process_all_segments ctx segments delay).1 ∧
      generate_structured_notes ctx (ctx.resp k) s = .ok sd0 ∧
      sd = { sd0 with segment_id := some i } := by
    intro sd hsd
    obtain ⟨j, k, s, sd0, hid, hij, hget, hmem, hok2, heq⟩ := hprov sd hsd
    have hmem' : Event.attempt j k s ∈ evs := by
      rw [hr] at hmem
      exact hmem
    exact ⟨j, k, s, sd0, hid, hij, hget, by rw [hevs]; exact hmem', hok2, heq⟩
  have hskip : ∀ i,
      (∀ k s, Event.attempt i k s ∈ (process_all_segments ctx segments delay).1 →
        ∃ msg, generate_structured_notes ctx (ctx.resp k) s = .error msg) →
      ∀ sd ∈ sds, sd.segment_id ≠ some i := by
    intro i hall sd hsd hcontra
    obtain ⟨j, k, s, sd0, hid, -, -, hmem, hok2, -⟩ := hprov' sd hsd
    have hji : j = i := by
      rw [hid] at hcontra
      injection hcontra
    subst hji
    obtain ⟨msg, herr⟩ := hall k s hmem
    rw [hok2] at herr
    cases herr
  refine ⟨{ total_segments := sds.length
            overall_summary := (generate_overall_summary ctx segments).1
            document_keywords := (generate_overall_summary ctx segments).2
            segments := sds
            all_action_items := extract_all_items sds fun sd => sd.action_items
            all_questions := extract_all_items sds fun sd => sd.questions
            all_keywords := extract_unique_keywords sds },
    ?_, hlen, hsub', hpair, hprov', hskip⟩
  simp only [process_all_segments, hr]
  rfl

theorem failed_segments_dropped_witness :
    ((∀ k s msg, generate_structured_notes ctxC4 (ctxC4.resp k) s = .error msg →
        isFatalError msg = false) ∧
      ((process_all_segments ctxC4 ["a", "b"] 1).2.toOption.map fun out =>
        out.segments.map fun sd => sd.segment_id) = some [some 2]) ∧
    ∃ out, (process_all_segments ctxC4 ["a", "b"] 1).2 = .ok out ∧
      out.segments.length ≤ 2 ∧
      List.Sublist (out.segments.map fun sd => sd.segment_id)
        ((List.range' 1 2).map some) ∧
      List.Pairwise (· < ·) (out.segments.map fun sd => sd.segment_id.getD 0) ∧
      (∀ sd ∈ out.segments, ∃ i k s sd0, sd.segment_id = some i ∧ 1 ≤ i ∧
        (["a", "b"] : List String).get? (i - 1) = some s ∧
        Event.attempt i k s ∈ (process_all_segments ctxC4 ["a", "b"] 1).1 ∧
        generate_structured_notes ctxC4 (ctxC4.resp k) s = .ok sd0 ∧
        sd = { sd0 with segment_id := some i }) ∧
      ∀ i, (∀ k s, Event.attempt i k s ∈ (process_all_segments ctxC4 ["a", "b"] 1).1 →
          ∃ msg, generate_structured_notes ctxC4 (ctxC4.resp k) s = .error msg) →
        ∀ sd ∈ out.segments, sd.segment_id ≠ some i := by
  have hnf : ∀ k s msg, generate_structured_notes ctxC4 (ctxC4.resp k) s = .error msg →
      isFatalError msg = false := by
    intro k s msg h
    by_cases hk : k < 3
    · have hresp : ctxC4.resp k = .error "boom" := by
        simp only [ctxC4]
        rw [if_pos hk]
      rw [hresp] at h
      have h' : Except.error (ε := String) (α := StructuredData) "boom" = .error msg := h
      injection h' with hm
      subst hm
      decide
    · have hresp : ctxC4.resp k = .ok "ok" := by
        simp only [ctxC4]
        rw [if_neg hk]
      rw [hresp] at h
      simp only [generate_structured_notes] at h
      have hparse : ctxC4.parse (gsnClean "ok") = some (Json.obj []) := rfl
      rw [hparse] at h
      simp at h
  exact ⟨⟨hnf, by decide⟩, failed_segments_dropped ctxC4 ["a", "b"] 1 hnf⟩

/-- Claim C7: with an empty `text` or an empty `keyword`,
`keyword_summarize` returns the validation-error record immediately and the
generation capability is never invoked (zero calls). -/
theorem keyword_validation_no_call (parse : String → Option Json) (clientOk : Bool)
    (response : Except String String) (text keyword : String)
    (h : text = "" ∨ keyword = "") :
    keyword_summarize parse clientOk response text keyword =
      (Json.obj [("error", Json.str "Text and keyword are required")], 0) := by
  simp only [keyword_summarize, if_pos h]

theorem keyword_validation_no_call_witness :
    ((("" : String) = "" ∨ ("topic" : String) = "") ∧
      (("text" : String) = "" ∨ ("" : String) = "")) ∧
    keyword_summarize (fun _ => none) true (.ok "resp") "" "topic" =
      (Json.obj [("error", Json.str "Text and keyword are required")], 0) ∧
    keyword_summarize (fun _ => none) true (.ok "resp") "text" "" =
      (Json.obj [("error", Json.str "Text and keyword are required")], 0) :=
  ⟨⟨Or.inl rfl, Or.inr rfl⟩,
   keyword_validation_no_call _ _ _ _ _ (Or.inl rfl),
   keyword_validation_no_call _ _ _ _ _ (Or.inr rfl)⟩

/-- Claim C10: when the cleaned model response parses as valid JSON,
`keyword_summarize` returns the parsed value unchanged after exactly one
generation call — no shape validation is performed, so a value lacking the
contract fields is passed through as-is, with nothing added and no error
field set. -/
theorem keyword_valid_json_unvalidated (parse : String → Option Json)
    (raw text keyword : String) (j : Json)
    (htext : text ≠ "") (hkey : keyword ≠ "")
    (hparse : parse (pyStrip ⟨keywordFenceClean (pyStrip raw).data⟩) = some j) :
    keyword_summarize parse true (.ok raw) text keyword = (j, 1) := by
  simp only [keyword_summarize]
  rw [if_neg (by simp [htext, hkey])]
  rw [if_neg (by simp)]
  simp [safe_json_parse, hparse]

theorem keyword_valid_json_unvalidated_witness :
    (("text" : String) ≠ "" ∧ ("ml" : String) ≠ "" ∧
      (fun _ : String => some (Json.obj []))
        (pyStrip ⟨keywordFenceClean (pyStrip "resp").data⟩) = some (Json.obj [])) ∧
    keyword_summarize (fun _ => some (Json.obj [])) true (.ok "resp") "text" "ml" =
      (Json.obj [], 1) :=
  ⟨⟨by decide, by decide, rfl⟩,
   keyword_valid_json_unvalidated (fun _ => some (Json.obj [])) "resp" "text" "ml"
     (Json.obj []) (by decide) (by decide) rfl⟩

theorem dropLit_append (p : List Char) : ∀ l, dropLit p (p ++ l) = some l := by
  induction p with
  | nil => intro l; rfl
  | cons x ps ih => intro l; simp [dropLit, ih]

theorem dropLit_cons_ne (x : Char) (ps : List Char) (c : Char) (cs : List Char)
    (h : c ≠ x) : dropLit (x :: ps) (c :: cs) = none := by
  simp [dropLit, h]

theorem mmSubF_nil (fuel : Nat) (st : Bool) : mmSubF fuel st [] = [] := by
  cases fuel <;> rfl

/-- A character other than a backtick is copied through unchanged. -/
theorem mmSubF_step (fuel : Nat) (st : Bool) (c : Char) (cs : List Char)
    (hc : c ≠ bq) :
    mmSubF (fuel + 1) st (c :: cs) = c :: mmSubF fuel (c == '\n') cs := by
  have h1 : dropLit mmHeaderNL (c :: cs) = none := by
    rw [(by decide : mmHeaderNL = bq :: "``mermaid\n".data)]
    exact dropLit_cons_ne _ _ _ _ hc
  have h2 : dropLit mmHeader (c :: cs) = none := by
    rw [(by decide : mmHeader = bq :: "``mermaid".data)]
    exact dropLit_cons_ne _ _ _ _ hc
  have h3 : dropLit fenceChars (c :: cs) = none := by
    rw [(by decide : fenceChars = bq :: "``".data)]
    exact dropLit_cons_ne _ _ _ _ hc
  simp only [mmSubF, h1, h2, h3, ite_self]

theorem mmSubF_clean (b : List Char) (hb : ∀ c ∈ b, c ≠ bq) :
    ∀ (fuel : Nat) (st : Bool) (rest : List Char),
      mmSubF (b.length + fuel) st (b ++ rest) =
        b ++ mmSubF fuel (endSt b st) rest := by
  induction b with
  | nil => intro fuel st rest; simp [endSt]
  | cons c b' ih =>
    intro fuel st rest
    have hc : c ≠ bq := hb c (List.mem_cons_self ..)
    have hb' : ∀ x ∈ b', x ≠ bq := fun x hx => hb x (List.mem_cons_of_mem _ hx)
    have hlen : (c :: b').length + fuel = (b'.length + fuel) + 1 := by
      simp [List.length_cons]; omega
    rw [hlen]
    rw [List.cons_append, mmSubF_step _ _ _ _ hc, ih hb' fuel (c == '\n') rest]
    simp [endSt]

/-- A "```mermaid\n" at a line start is removed. -/
theorem mmSubF_header (fuel : Nat) (rest : List Char) :
    mmSubF (fuel + 1) true (mmHeaderNL ++ rest) = mmSubF fuel true rest := by
  have h1 : dropLit mmHeaderNL (mmHeaderNL ++ rest) = some rest := dropLit_append _ _
  have hcons : mmHeaderNL ++ rest = bq :: ("``mermaid\n".data ++ rest) := by
    rw [(by decide : mmHeaderNL = bq :: "``mermaid\n".data)]
    rfl
  rw [hcons] at h1 ⊢
  simp only [mmSubF, if_true, h1]

/-- A trailing "\n```" is reduced to the newline. -/
theorem mmSubF_footer (fuel : Nat) (st : Bool) (hfuel : 2 ≤ fuel) :
    mmSubF fuel st ('\n' :: fenceChars) = ['\n'] := by
  obtain ⟨f, rfl⟩ : ∃ f, fuel = f + 2 := ⟨fuel - 2, by omega⟩
  have hstep := mmSubF_step (f + 1) st '\n' fenceChars (by decide)
  rw [hstep]
  have hcons : fenceChars = bq :: "``".data := by decide
  have h1 : dropLit mmHeaderNL (bq :: "``".data) = none := by decide
  have h2 : dropLit mmHeader (bq :: "``".data) = none := by decide
  have h3 : dropLit fenceChars (bq :: "``".data) = some [] := by decide
  rw [hcons]
  simp [mmSubF, h1, h2, h3, mmSubF_nil]

/-- A bare "```" ending its line is removed (also at a line start). -/
theorem mmSubF_bare_fence (fuel : Nat) (st : Bool) (rest : List Char) :
    mmSubF (fuel + 1) st (fenceChars ++ '\n' :: rest) =
      mmSubF fuel false ('\n' :: rest) := by
  have hcons : fenceChars ++ '\n' :: rest = bq :: ("``".data ++ '\n' :: rest) := by
    rw [(by decide : fenceChars = bq :: "``".data)]
    rfl
  have h1 : dropLit mmHeaderNL (bq :: ("``".data ++ '\n' :: rest)) = none := by
    rw [(by decide : mmHeaderNL = "```".data ++ "mermaid\n".data)]
    rw [(by rfl : bq :: ("``".data ++ '\n' :: rest) = "```".data ++ '\n' :: rest)]
    rw [(by decide : ("```" : String).data = [bq, bq, bq]),
      (by decide : ("mermaid\n" : String).data = 'm' :: "ermaid\n".data)]
    simp [dropLit]
  have h2 : dropLit mmHeader (bq :: ("``".data ++ '\n' :: rest)) = none := by
    rw [(by decide : mmHeader = "```".data ++ "mermaid".data)]
    rw [(by rfl : bq :: ("``".data ++ '\n' :: rest) = "```".data ++ '\n' :: rest)]
    rw [(by decide : ("```" : String).data = [bq, bq, bq]),
      (by decide : ("mermaid" : String).data = 'm' :: "ermaid".data)]
    simp [dropLit]
  have h3 : dropLit fenceChars (bq :: ("``".data ++ '\n' :: rest)) = some ('\n' :: rest) := by
    rw [(by rfl : bq :: ("``".data ++ '\n' :: rest) = fenceChars ++ '\n' :: rest)]
    exact dropLit_append _ _
  rw [hcons]
  simp only [mmSubF, if_true, h1, h2, h3, List.head?_cons, ite_self]
  simp

theorem stripChars_cons_append (x : Char) (mid : List Char) (y : Char)
    (hx : x.isWhitespace = false) (hy : y.isWhitespace = false) :
    stripChars (x :: (mid ++ [y])) = x :: (mid ++ [y]) := by
  have h1 : List.dropWhile (fun c => c.isWhitespace) (x :: (mid ++ [y])) =
      x :: (mid ++ [y]) := by
    simp [List.dropWhile_cons, hx]
  rw [stripChars, h1]
  have h2 : (x :: (mid ++ [y])).reverse = y :: (mid.reverse ++ [x]) := by
    simp
  rw [h2]
  have h3 : List.dropWhile (fun c => c.isWhitespace) (y :: (mid.reverse ++ [x])) =
      y :: (mid.reverse ++ [x]) := by
    simp [List.dropWhile_cons, hy]
  rw [h3, ← h2, List.reverse_reverse]

theorem stripChars_append_newline (l : List Char) :
    stripChars (l ++ ['\n']) = stripChars l := by
  rw [stripChars, stripChars, List.dropWhile_append]
  by_cases h : (List.dropWhile (fun c => c.isWhitespace) l).isEmpty
  · rw [if_pos h]
    rw [List.isEmpty_iff.mp h]
    simp [List.dropWhile_cons, (by decide : ('\n').isWhitespace = true)]
  · rw [if_neg h]
    rw [List.reverse_append]
    simp [List.dropWhile_cons, (by decide : ('\n').isWhitespace = true)]

theorem stripChars_cons_newline (l : List Char) :
    stripChars ('\n' :: l) = stripChars l := by
  rw [stripChars, stripChars]
  rw [List.dropWhile_cons]
  simp [(by decide : ('\n').isWhitespace = true)]

theorem string_mk_data (s : String) : String.mk s.data = s := rfl

/-- Claim C9 counterexample: the regex only strips `mermaid` and bare
fences, so a response wrapped in a "```json" fence keeps it — the produced
diagram text still begins with a code-fence line. -/
theorem mindmap_fence_cex :
    generate_mindmap (.ok "```json\nmindmap\n```") = "```json\nmindmap" ∧
    beginsWithFence (generate_mindmap (.ok "```json\nmindmap\n```")) = true := by
  constructor <;> decide

/-- Claim C9 (amended): `generate_mindmap` strips the enclosing fence
variants its regex targets — for a response wrapping a backtick-free body
in a "```mermaid" fence or a bare "```" fence, the result is exactly the
stripped body (so it neither begins nor ends with fence markup); other
fence variants (e.g. "```json") are not stripped. -/
theorem mindmap_known_fences_stripped (b : String) (hb : ∀ c ∈ b.data, c ≠ bq) :
    generate_mindmap (.ok ("```mermaid\n" ++ b ++ "\n```")) = pyStrip b ∧
    generate_mindmap (.ok ("```\n" ++ b ++ "\n```")) = pyStrip b := by
  constructor
  · show mindmapClean ("```mermaid\n" ++ b ++ "\n```") = pyStrip b
    have hdata : ("```mermaid\n" ++ b ++ "\n```").data =
        mmHeaderNL ++ (b.data ++ '\n' :: fenceChars) := by
      rw [String.data_append, String.data_append]
      rw [(by decide : ("\n```" : String).data = '\n' :: fenceChars)]
      rw [List.append_assoc]
      rfl
    have hstrip : pyStrip ("```mermaid\n" ++ b ++ "\n```") =
        "```mermaid\n" ++ b ++ "\n```" := by
      have hform : ("```mermaid\n" ++ b ++ "\n```").data =
          bq :: (("``mermaid\n".data ++ b.data ++ ['\n', bq, bq]) ++ [bq]) := by
        rw [hdata]
        rw [(by decide : mmHeaderNL = bq :: "``mermaid\n".data),
          (by decide : fenceChars = [bq, bq, bq])]
        simp
      have hmk : pyStrip ("```mermaid\n" ++ b ++ "\n```") =
          ⟨stripChars ("```mermaid\n" ++ b ++ "\n```").data⟩ := rfl
      rw [hmk, hform, stripChars_cons_append _ _ _ (by decide) (by decide), ← hform]
    have hunfold : mindmapClean ("```mermaid\n" ++ b ++ "\n```") =
        pyStrip ⟨mmSubF ((pyStrip ("```mermaid\n" ++ b ++ "\n```")).data.length) true
          ((pyStrip ("```mermaid\n" ++ b ++ "\n```")).data)⟩ := rfl
    rw [hunfold, hstrip, hdata]
    have hlen : (mmHeaderNL ++ (b.data ++ '\n' :: fenceChars)).length =
        (b.data.length + 14) + 1 := by
      simp [List.length_append, (by decide : mmHeaderNL.length = 11),
        (by decide : ('\n' :: fenceChars).length = 4)]
      try omega
    rw [hlen, mmSubF_header, mmSubF_clean b.data hb 14 true ('\n' :: fenceChars),
      mmSubF_footer 14 _ (by omega)]
    have hmk2 : pyStrip (⟨b.data ++ ['\n']⟩ : String) =
        ⟨stripChars (b.data ++ ['\n'])⟩ := rfl
    rw [hmk2, stripChars_append_newline]
    rfl
  · show mindmapClean ("```\n" ++ b ++ "\n```") = pyStrip b
    have hdata : ("```\n" ++ b ++ "\n```").data =
        fenceChars ++ '\n' :: (b.data ++ '\n' :: fenceChars) := by
      rw [String.data_append, String.data_append]
      rw [(by decide : ("\n```" : String).data = '\n' :: fenceChars),
        (by decide : ("```\n" : String).data = fenceChars ++ ['\n'])]
      simp
    have hstrip : pyStrip ("```\n" ++ b ++ "\n```") = "```\n" ++ b ++ "\n```" := by
      have hform : ("```\n" ++ b ++ "\n```").data =
          bq :: (([bq, bq, '\n'] ++ b.data ++ ['\n', bq, bq]) ++ [bq]) := by
        rw [hdata]
        rw [(by decide : fenceChars = [bq, bq, bq])]
        simp
      have hmk : pyStrip ("```\n" ++ b ++ "\n```") =
          ⟨stripChars ("```\n" ++ b ++ "\n```").data⟩ := rfl
      rw [hmk, hform, stripChars_cons_append _ _ _ (by decide) (by decide), ← hform]
    have hunfold : mindmapClean ("```\n" ++ b ++ "\n```") =
        pyStrip ⟨mmSubF ((pyStrip ("```\n" ++ b ++ "\n```")).data.length) true
          ((pyStrip ("```\n" ++ b ++ "\n```")).data)⟩ := rfl
    rw [hunfold, hstrip, hdata]
    have hlen : (fenceChars ++ '\n' :: (b.data ++ '\n' :: fenceChars)).length =
        ((b.data.length + 6) + 1) + 1 := by
      simp [List.length_append, (by decide : fenceChars.length = 3)]
      try omega
    rw [hlen, mmSubF_bare_fence, mmSubF_step _ _ _ _ (by decide),
      mmSubF_clean b.data hb 6 _ ('\n' :: fenceChars),
      mmSubF_footer 6 _ (by omega)]
    have hmk2 : pyStrip (⟨'\n' :: (b.data ++ ['\n'])⟩ : String) =
        ⟨stripChars ('\n' :: (b.data ++ ['\n']))⟩ := rfl
    rw [hmk2, stripChars_cons_newline, stripChars_append_newline]
    rfl

theorem mindmap_known_fences_stripped_witness :
    (∀ c ∈ ("mindmap\n  root((ml))" : String).data, c ≠ bq) ∧
    generate_mindmap (.ok ("```mermaid\n" ++ "mindmap\n  root((ml))" ++ "\n```")) =
      pyStrip "mindmap\n  root((ml))" ∧
    generate_mindmap (.ok ("```\n" ++ "mindmap\n  root((ml))" ++ "\n```")) =
      pyStrip "mindmap\n  root((ml))" :=
  ⟨by decide,
   (mindmap_known_fences_stripped "mindmap\n  root((ml))" (by decide)).1,
   (mindmap_known_fences_stripped "mindmap\n  root((ml))" (by decide)).2⟩
